import Mathlib

/-!
Verification development for the audio ingestion-and-extraction pipeline
(`intent_extraction.py`, `intent_extraction_bu.py`, `intent_extraction_cont.py`,
`files_processer.py`).

The Python sources are shallowly embedded: JSON values are an inductive type,
`json.loads` is an executable recursive-descent parser over character lists
(fuel-bounded, with fuel generous enough for any input of the given length),
stateful SQLite access is explicit list-of-rows state passing, exceptions are
`Except`/`Option`, and nondeterministic collaborators (the Ollama chat call,
`uuid.uuid4()`, `datetime.now()`, the filesystem) are explicit parameters or
oracle functions.
-/

/-- Embedding of a parsed Python JSON value (the result of `json.loads`).
Numbers keep their raw lexeme (the sources never inspect numeric values, so
no float arithmetic is needed); objects keep fields in textual order. -/
inductive JValue where
  | jnull : JValue
  | jbool : Bool → JValue
  | jnum : String → JValue
  | jstr : String → JValue
  | jarr : List JValue → JValue
  | jobj : List (String × JValue) → JValue

/-- JSON whitespace skipping, as in Python's `json` lexer. -/
def skipWs : List Char → List Char
  | [] => []
  | c :: cs => if c = ' ' ∨ c = '\n' ∨ c = '\t' ∨ c = '\r' then skipWs cs else c :: cs

/-- Value of a hex digit, for `\uXXXX` escapes. -/
def hexVal (c : Char) : Option Nat :=
  if '0' ≤ c ∧ c ≤ '9' then some (c.toNat - '0'.toNat)
  else if 'a' ≤ c ∧ c ≤ 'f' then some (c.toNat - 'a'.toNat + 10)
  else if 'A' ≤ c ∧ c ≤ 'F' then some (c.toNat - 'A'.toNat + 10)
  else none

/-- Single-character JSON string escapes. -/
def escChar (c : Char) : Option Char :=
  if c = '"' then some '"'
  else if c = '\\' then some '\\'
  else if c = '/' then some '/'
  else if c = 'b' then some (Char.ofNat 8)
  else if c = 'f' then some (Char.ofNat 12)
  else if c = 'n' then some '\n'
  else if c = 'r' then some '\r'
  else if c = 't' then some '\t'
  else none

/-- Parse the body of a JSON string literal (after the opening quote),
returning the decoded characters and the remaining input.  Raw control
characters are rejected, as in strict `json.loads`. -/
def parseStrBody : List Char → Option (List Char × List Char)
  | [] => none
  | c :: rest =>
    if c = '"' then some ([], rest)
    else if c = '\\' then
      match rest with
      | 'u' :: a :: b :: c2 :: d :: rest2 =>
        match hexVal a, hexVal b, hexVal c2, hexVal d with
        | some ha, some hb, some hc, some hd =>
          (parseStrBody rest2).map
            (fun p => (Char.ofNat (((ha * 16 + hb) * 16 + hc) * 16 + hd) :: p.1, p.2))
        | _, _, _, _ => none
      | e :: rest2 =>
        match escChar e with
        | some c2 => (parseStrBody rest2).map (fun p => (c2 :: p.1, p.2))
        | none => none
      | [] => none
    else if c.toNat < 32 then none
    else (parseStrBody rest).map (fun p => (c :: p.1, p.2))

def isDigitC (c : Char) : Bool := '0' ≤ c && c ≤ '9'

/-- Exponent tail of a JSON number lexeme. -/
def expTail (lex : List Char) (e : Char) (cs : List Char) : Option (List Char × List Char) :=
  let sg := match cs with
    | '+' :: t => (['+'], t)
    | '-' :: t => (['-'], t)
    | _ => ([], cs)
  let ds := sg.2.takeWhile isDigitC
  if ds.isEmpty then none
  else some (lex ++ e :: sg.1 ++ ds, sg.2.drop ds.length)

/-- Optional exponent part of a JSON number lexeme. -/
def expPart (lex : List Char) (cs : List Char) : Option (List Char × List Char) :=
  match cs with
  | 'e' :: t => expTail lex 'e' t
  | 'E' :: t => expTail lex 'E' t
  | _ => some (lex, cs)

/-- JSON number lexeme (sign, integer part without leading zeros, optional
fraction and exponent), returned as its raw text. -/
def parseNumLex (cs : List Char) : Option (List Char × List Char) :=
  let sg := match cs with
    | '-' :: t => (['-'], t)
    | _ => ([], cs)
  let ds := sg.2.takeWhile isDigitC
  if ds.isEmpty then none
  else if 1 < ds.length ∧ ds.head? = some '0' then none
  else
    let cs2 := sg.2.drop ds.length
    match cs2 with
    | '.' :: t =>
      let fs := t.takeWhile isDigitC
      if fs.isEmpty then none
      else expPart (sg.1 ++ ds ++ '.' :: fs) (t.drop fs.length)
    | _ => expPart (sg.1 ++ ds) cs2

mutual

/-- Recursive-descent parser for one JSON value, embedding Python's
`json.loads` grammar.  `fuel` bounds recursion; every recursive call spends
one unit, and the top-level entry point supplies more fuel than any input of
its length can consume. -/
def parseVal : Nat → List Char → Option (JValue × List Char)
  | 0, _ => none
  | fuel + 1, cs =>
    match skipWs cs with
    | [] => none
    | c :: rest =>
      if c = 'n' then
        match rest with
        | 'u' :: 'l' :: 'l' :: r => some (.jnull, r)
        | _ => none
      else if c = 't' then
        match rest with
        | 'r' :: 'u' :: 'e' :: r => some (.jbool true, r)
        | _ => none
      else if c = 'f' then
        match rest with
        | 'a' :: 'l' :: 's' :: 'e' :: r => some (.jbool false, r)
        | _ => none
      else if c = '"' then
        (parseStrBody rest).map (fun p => (.jstr (String.mk p.1), p.2))
      else if c = '[' then parseArrElems fuel rest
      else if c = '{' then parseObjElems fuel rest
      else (parseNumLex (c :: rest)).map (fun p => (.jnum (String.mk p.1), p.2))

/-- Array contents after `[`. -/
def parseArrElems : Nat → List Char → Option (JValue × List Char)
  | 0, _ => none
  | fuel + 1, cs =>
    match skipWs cs with
    | ']' :: r => some (.jarr [], r)
    | cs' => parseArrRest fuel [] cs'

/-- Non-empty array tail: one element, then `,` and more or `]`. -/
def parseArrRest : Nat → List JValue → List Char → Option (JValue × List Char)
  | 0, _, _ => none
  | fuel + 1, acc, cs =>
    match parseVal fuel cs with
    | none => none
    | some (v, r) =>
      match skipWs r with
      | ',' :: r2 => parseArrRest fuel (acc ++ [v]) r2
      | ']' :: r2 => some (.jarr (acc ++ [v]), r2)
      | _ => none

/-- Object contents after an opening brace. -/
def parseObjElems : Nat → List Char → Option (JValue × List Char)
  | 0, _ => none
  | fuel + 1, cs =>
    match skipWs cs with
    | '}' :: r => some (.jobj [], r)
    | cs' => parseObjRest fuel [] cs'

/-- Non-empty object tail: `"key": value`, then `,` and more or a closing
brace. -/
def parseObjRest : Nat → List (String × JValue) → List Char → Option (JValue × List Char)
  | 0, _, _ => none
  | fuel + 1, acc, cs =>
    match skipWs cs with
    | '"' :: r =>
      match parseStrBody r with
      | none => none
      | some (k, r1) =>
        match skipWs r1 with
        | ':' :: r2 =>
          match parseVal fuel r2 with
          | none => none
          | some (v, r3) =>
            match skipWs r3 with
            | ',' :: r4 => parseObjRest fuel (acc ++ [(String.mk k, v)]) r4
            | '}' :: r4 => some (.jobj (acc ++ [(String.mk k, v)]), r4)
            | _ => none
        | _ => none
    | _ => none

end

/-- Embedding of `json.loads`: parse one JSON document and require that only
whitespace remains.  The fuel `4 * length + 4` exceeds what parsing an input
of this length can spend (each unit of fuel spent corresponds to at least one
consumed character, up to a small constant factor). -/
def jsonLoads (cs : List Char) : Option JValue :=
  match parseVal (4 * cs.length + 4) cs with
  | some (v, r) => if skipWs r = [] then some v else none
  | none => none

/-- Embedding of `re.search(r'\x7b.*\x7d', raw, re.DOTALL)` from the
extractor's repair step: the leftmost-then-greedy match runs from the first
`\x7b` in the text to the last `\x7d`, provided that last `\x7d` comes
strictly after it; otherwise there is no match. -/
def braceMatch (cs : List Char) : Option (List Char) :=
  let rest := cs.dropWhile (fun c => !(c == '{'))
  match rest with
  | [] => none
  | _ :: _ =>
    let afterLast := rest.reverse.takeWhile (fun c => !(c == '}'))
    let m := rest.take (rest.length - afterLast.length)
    if 2 ≤ m.length then some m else none

/-- One attempt's parse pipeline from
`AudioProcessor.extract_intent_and_entities` (`intent_extraction.py`
lines 199-220): try `json.loads` on the raw response; on failure, replace the
raw text by the regex brace match when one exists (leave it unchanged
otherwise) and try `json.loads` again.  `none` means both parses raised, i.e.
the attempt failed. -/
def attemptParse (raw : List Char) : Option JValue :=
  match jsonLoads raw with
  | some v => some v
  | none =>
    let raw2 := match braceMatch raw with
      | some m => m
      | none => raw
    jsonLoads raw2

/-- Outcome of one `ollama.chat` invocation: `Except.error` is a raised
exception (transport failure, malformed response object, ...), caught by the
attempt's `except` clause; `Except.ok raw` is the
`response['message']['content']` text. -/
def attemptResult : Except String String → Option JValue
  | .error _ => none
  | .ok raw => attemptParse raw.data

/-- `max_attempts = 3` (`intent_extraction.py` line 182). -/
def MAX_ATTEMPTS : Nat := 3

/-- The fixed fallback `{'intent': 'UNKNOWN', 'entities': []}` returned when
all attempts are exhausted (`intent_extraction.py` lines 226-229). -/
def fallbackValue : JValue := .jobj [("intent", .jstr "UNKNOWN"), ("entities", .jarr [])]

/-- The retry loop of `extract_intent_and_entities`: `rem` attempts remain,
`used` chat calls were already made.  The oracle gives each chat call's
behaviour.  Returns the extracted value together with the total number of
chat calls made. -/
def extractLoop (oracle : Nat → Except String String) : Nat → Nat → JValue × Nat
  | 0, used => (fallbackValue, used)
  | rem + 1, used =>
    match attemptResult (oracle used) with
    | some v => (v, used + 1)
    | none => extractLoop oracle rem (used + 1)

/-- Embedding of `AudioProcessor.extract_intent_and_entities`
(`intent_extraction.py` lines 146-236, identical in
`intent_extraction_bu.py`): the returned value.  The input text only shapes
the prompt, never the control flow, so the function is parameterized by the
chat-call oracle alone. -/
def extract_intent_and_entities (oracle : Nat → Except String String) : JValue :=
  (extractLoop oracle MAX_ATTEMPTS 0).1

/-- Number of `ollama.chat` invocations a call to the extractor makes. -/
def extractChatCalls (oracle : Nat → Except String String) : Nat :=
  (extractLoop oracle MAX_ATTEMPTS 0).2

example : extract_intent_and_entities (fun _ => .error "connection refused") = fallbackValue := rfl
example : extract_intent_and_entities (fun _ => .ok "I could not decide.") = fallbackValue := rfl
example :
    extract_intent_and_entities
        (fun _ => .ok "Sure: \x7b\"intent\": \"OTHER\", \"entities\": []\x7d") =
      .jobj [("intent", .jstr "OTHER"), ("entities", .jarr [])] := rfl
example : braceMatch "ab\x7bc\x7bd\x7de\x7df".data = "\x7bc\x7bd\x7de\x7d".data := rfl
example : braceMatch "ab\x7bcd".data = none := rfl
example : braceMatch "a\x7dbc\x7bd".data = none := rfl

example : jsonLoads "\x7b\"intent\":\"X\",\"entities\":[]\x7d".data =
    some (.jobj [("intent", .jstr "X"), ("entities", .jarr [])]) := rfl

theorem extractLoop_allfail (oracle : Nat → Except String String) :
    ∀ rem used, (∀ j, j < rem → attemptResult (oracle (used + j)) = none) →
      extractLoop oracle rem used = (fallbackValue, used + rem) := by
  intro rem
  induction rem with
  | zero => intro used _; rfl
  | succ r ih =>
    intro used h
    have h0 : attemptResult (oracle used) = none := by
      have := h 0 (Nat.succ_pos r)
      simpa using this
    have hrest : ∀ j, j < r → attemptResult (oracle (used + 1 + j)) = none := by
      intro j hj
      have := h (j + 1) (by omega)
      have e : used + (j + 1) = used + 1 + j := by omega
      rwa [e] at this
    calc extractLoop oracle (r + 1) used
        = extractLoop oracle r (used + 1) := by simp [extractLoop, h0]
      _ = (fallbackValue, used + 1 + r) := ih (used + 1) hrest
      _ = (fallbackValue, used + (r + 1)) := by rw [Nat.add_assoc, Nat.add_comm 1 r]

theorem extractLoop_calls_le (oracle : Nat → Except String String) :
    ∀ rem used, (extractLoop oracle rem used).2 ≤ used + rem := by
  intro rem
  induction rem with
  | zero => intro used; simp [extractLoop]
  | succ r ih =>
    intro used
    cases h : attemptResult (oracle used) with
    | some v => simp [extractLoop, h]
    | none =>
      have := ih (used + 1)
      calc (extractLoop oracle (r + 1) used).2
          = (extractLoop oracle r (used + 1)).2 := by simp [extractLoop, h]
        _ ≤ used + 1 + r := this
        _ ≤ used + (r + 1) := by omega

theorem extractLoop_success (oracle : Nat → Except String String) :
    ∀ k rem used v, k < rem →
      (∀ j, j < k → attemptResult (oracle (used + j)) = none) →
      attemptResult (oracle (used + k)) = some v →
      extractLoop oracle rem used = (v, used + k + 1) := by
  intro k
  induction k with
  | zero =>
    intro rem used v hlt _ hs
    obtain ⟨r, rfl⟩ : ∃ r, rem = r + 1 := ⟨rem - 1, by omega⟩
    simp at hs
    simp [extractLoop, hs]
  | succ n ih =>
    intro rem used v hlt hprev hs
    obtain ⟨r, rfl⟩ : ∃ r, rem = r + 1 := ⟨rem - 1, by omega⟩
    have h0 : attemptResult (oracle used) = none := by
      have := hprev 0 (Nat.succ_pos n)
      simpa using this
    have hprev' : ∀ j, j < n → attemptResult (oracle (used + 1 + j)) = none := by
      intro j hj
      have := hprev (j + 1) (by omega)
      have e : used + (j + 1) = used + 1 + j := by omega
      rwa [e] at this
    have hs' : attemptResult (oracle (used + 1 + n)) = some v := by
      have e : used + (n + 1) = used + 1 + n := by omega
      rwa [e] at hs
    calc extractLoop oracle (r + 1) used
        = extractLoop oracle r (used + 1) := by simp [extractLoop, h0]
      _ = (v, used + 1 + n + 1) := ih r (used + 1) v (by omega) hprev' hs'
      _ = (v, used + (n + 1) + 1) := by rw [show used + 1 + n = used + (n + 1) by omega]

/-- Claim C1: for every behaviour of the underlying model call — transport
failure (`Except.error`), non-JSON response, or an unparseable response on
all attempts — `extract_intent_and_entities` is a total function (the
embedding returns a plain `JValue`, mirroring the nested `try/except`
structure that swallows every exception), and when all `MAX_ATTEMPTS`
attempts fail to yield a parseable result it returns exactly the fallback
`\x7bintent: "UNKNOWN", entities: []\x7d`. -/
theorem extractor_fallback_on_total_failure (oracle : Nat → Except String String)
    (h : ∀ k, k < MAX_ATTEMPTS → attemptResult (oracle k) = none) :
    extract_intent_and_entities oracle = fallbackValue := by
  have h' : ∀ j, j < 3 → attemptResult (oracle (0 + j)) = none := by
    intro j hj
    simpa using h j hj
  have := extractLoop_allfail oracle 3 0 h'
  simp only [extract_intent_and_entities, MAX_ATTEMPTS, this]

theorem extractor_fallback_on_total_failure_witness :
    extract_intent_and_entities (fun _ => .error "connection refused") = fallbackValue :=
  extractor_fallback_on_total_failure (fun _ => .error "connection refused")
    (fun _ _ => rfl)

/-- Claim C3: a single extractor call makes at most `MAX_ATTEMPTS = 3` chat
calls, and as soon as one attempt's response parses successfully the
extractor returns that parsed value immediately, having made exactly
`k + 1` chat calls when attempt `k` (0-based) is the first to succeed. -/
theorem extractor_retry_bound_and_early_return (oracle : Nat → Except String String) :
    extractChatCalls oracle ≤ MAX_ATTEMPTS ∧
    ∀ k v, k < MAX_ATTEMPTS →
      (∀ j, j < k → attemptResult (oracle j) = none) →
      attemptResult (oracle k) = some v →
      extract_intent_and_entities oracle = v ∧ extractChatCalls oracle = k + 1 := by
  constructor
  · have := extractLoop_calls_le oracle 3 0
    simpa [extractChatCalls, MAX_ATTEMPTS] using this
  · intro k v hk hprev hs
    have hprev' : ∀ j, j < k → attemptResult (oracle (0 + j)) = none := by
      intro j hj; simpa using hprev j hj
    have hs' : attemptResult (oracle (0 + k)) = some v := by simpa using hs
    have := extractLoop_success oracle k 3 0 v hk hprev' hs'
    constructor
    · simp only [extract_intent_and_entities, MAX_ATTEMPTS, this]
    · simp only [extractChatCalls, MAX_ATTEMPTS, this]
      omega

theorem extractor_retry_bound_and_early_return_witness :
    extractChatCalls (fun _ => .ok "\x7b\"intent\": \"OTHER\", \"entities\": []\x7d") ≤
        MAX_ATTEMPTS ∧
      extract_intent_and_entities
          (fun _ => .ok "\x7b\"intent\": \"OTHER\", \"entities\": []\x7d") =
        .jobj [("intent", .jstr "OTHER"), ("entities", .jarr [])] ∧
      extractChatCalls (fun _ => .ok "\x7b\"intent\": \"OTHER\", \"entities\": []\x7d") = 1 := by
  have h := extractor_retry_bound_and_early_return
    (fun _ => .ok "\x7b\"intent\": \"OTHER\", \"entities\": []\x7d")
  have h2 := h.2 0 (.jobj [("intent", .jstr "OTHER"), ("entities", .jarr [])])
    (by decide) (fun j hj => absurd hj (Nat.not_lt_zero j)) rfl
  exact ⟨h.1, h2.1, h2.2⟩
example : jsonLoads "[[1]]".data = some (.jarr [.jarr [.jnum "1"]]) := rfl
example : jsonLoads " [1, 2] ".data = some (.jarr [.jnum "1", .jnum "2"]) := rfl
example : jsonLoads "\x7b\"a\": \"b c\"\x7d extra".data = none := rfl
example : jsonLoads "Sure: \x7b\"a\":1\x7d".data = none := rfl
example : jsonLoads "".data = none := rfl
example : jsonLoads "true".data = some (.jbool true) := rfl
example : jsonLoads "\x7b\"a\": [true, null, \"x\\\"y\"]\x7d".data =
    some (.jobj [("a", .jarr [.jbool true, .jnull, .jstr "x\"y"])]) := rfl

theorem listTakeAppend (a b : List Char) : (a ++ b).take a.length = a := by
  induction a with
  | nil => rfl
  | cons x t ih => simp [ih]

theorem dropWhileAppendAll (p : Char → Bool) (a b : List Char)
    (h : ∀ c ∈ a, p c = true) : (a ++ b).dropWhile p = b.dropWhile p := by
  induction a with
  | nil => rfl
  | cons x t ih =>
    have hx : p x = true := h x (List.mem_cons_self x t)
    simp only [List.cons_append, List.dropWhile_cons, hx, if_true]
    exact ih (fun c hc => h c (List.mem_cons_of_mem x hc))

theorem takeWhileAppendStop (p : Char → Bool) (a : List Char) (c : Char) (d : List Char)
    (h : ∀ x ∈ a, p x = true) (hc : p c = false) :
    (a ++ c :: d).takeWhile p = a := by
  induction a with
  | nil => simp [List.takeWhile_cons, hc]
  | cons x t ih =>
    have hx : p x = true := h x (List.mem_cons_self x t)
    simp only [List.cons_append, List.takeWhile_cons, hx, if_true]
    rw [ih (fun y hy => h y (List.mem_cons_of_mem x hy))]

/-- The repair regex applied to a response of the shape
`noise ++ object ++ noise`, where the leading noise has no opening brace and
the trailing noise has no closing brace: the greedy match is exactly the
embedded object text. -/
theorem braceMatch_embedded (pre mid post : List Char)
    (hpre : '{' ∉ pre) (hpost : '}' ∉ post) :
    braceMatch (pre ++ ('{' :: (mid ++ ['}'])) ++ post) = some ('{' :: (mid ++ ['}'])) := by
  have hp : ∀ c ∈ pre, (fun c => !(c == '{')) c = true := by
    intro c hc
    simp only [Bool.not_eq_true', beq_eq_false_iff_ne, ne_eq]
    intro e; exact hpre (e ▸ hc)
  have hq : ∀ x ∈ post.reverse, (fun c => !(c == '}')) x = true := by
    intro x hx
    simp only [Bool.not_eq_true', beq_eq_false_iff_ne, ne_eq]
    intro e; exact hpost (e ▸ (List.mem_reverse.mp hx))
  have h1 : (pre ++ ('{' :: (mid ++ ['}'])) ++ post).dropWhile (fun c => !(c == '{'))
      = '{' :: (mid ++ ['}']) ++ post := by
    rw [List.append_assoc, dropWhileAppendAll _ pre _ hp]
    simp [List.dropWhile_cons]
  have h2 : (('{' :: (mid ++ ['}']) ++ post)).reverse.takeWhile (fun c => !(c == '}'))
      = post.reverse := by
    have e1 : ('{' :: (mid ++ ['}']) ++ post).reverse
        = post.reverse ++ '}' :: (mid.reverse ++ ['{']) := by
      simp
    rw [e1, takeWhileAppendStop _ post.reverse '}' (mid.reverse ++ ['{']) hq (by simp)]
  have h3 : ('{' :: (mid ++ ['}']) ++ post).length - post.reverse.length
      = ('{' :: (mid ++ ['}'])).length := by
    simp only [List.length_cons, List.length_append, List.length_reverse]
    omega
  have h4 : ('{' :: (mid ++ ['}']) ++ post).take (('{' :: (mid ++ ['}'])).length)
      = '{' :: (mid ++ ['}']) := listTakeAppend ('{' :: (mid ++ ['}'])) post
  simp only [braceMatch, h1, h2, h3, h4]
  have h5 : 2 ≤ ('{' :: (mid ++ ['}'])).length := by simp
  simp [h5]

/-- Projection used to tell concrete `JValue`s apart without a global
decidable equality on the nested inductive. -/
def intentFieldString : JValue → String
  | .jobj (("intent", .jstr s) :: _) => s
  | _ => ""

/-- Claim C2 counterexample: a response whose surrounding prose contains a
stray closing brace after the JSON object.  The greedy match runs to the last
brace of the whole text, the extended substring is not valid JSON, so the
repair step fails and the extractor falls back to `UNKNOWN` instead of
returning the embedded `intent: X` object. -/
theorem repair_greedy_overrun_counterexample :
    extract_intent_and_entities
        (fun _ => .ok "Sure: \x7b\"intent\":\"X\",\"entities\":[]\x7d bye\x7d") = fallbackValue ∧
    fallbackValue ≠ JValue.jobj [("intent", .jstr "X"), ("entities", .jarr [])] := by
  refine ⟨rfl, ?_⟩
  intro h
  exact absurd (congrArg intentFieldString h) (by decide)

/-- Claim C2 (amended): when the noise before the object contains no opening
brace and the noise after it contains no closing brace, the repair step
recovers an embedded JSON object exactly: if the direct parse of the raw
response fails, the greedy brace match extracts precisely the object text,
its parse yields the object's value, and the extractor returns that value
for such a response. -/
theorem repair_recovers_braced_json (pre mid post : List Char) (v : JValue)
    (hpre : '{' ∉ pre) (hpost : '}' ∉ post)
    (hdirect : jsonLoads (pre ++ ('{' :: (mid ++ ['}'])) ++ post) = none)
    (hobj : jsonLoads ('{' :: (mid ++ ['}'])) = some v) :
    attemptParse (pre ++ ('{' :: (mid ++ ['}'])) ++ post) = some v ∧
    extract_intent_and_entities
        (fun _ => .ok (String.mk (pre ++ ('{' :: (mid ++ ['}'])) ++ post))) = v := by
  have hbm := braceMatch_embedded pre mid post hpre hpost
  have hap : attemptParse (pre ++ ('{' :: (mid ++ ['}'])) ++ post) = some v := by
    simp only [attemptParse, hdirect, hbm, hobj]
  refine ⟨hap, ?_⟩
  have h0 : attemptResult
      ((fun _ => Except.ok (String.mk (pre ++ ('{' :: (mid ++ ['}'])) ++ post))) 0) = some v := hap
  have := extractLoop_success
    (fun _ => .ok (String.mk (pre ++ ('{' :: (mid ++ ['}'])) ++ post))) 0 3 0 v
    (by omega) (fun j hj => absurd hj (Nat.not_lt_zero j)) (by simpa using h0)
  simp only [extract_intent_and_entities, MAX_ATTEMPTS, this]

theorem repair_recovers_braced_json_witness :
    attemptParse ("Sure, here you go: ".data ++
        ('{' :: ("\"intent\":\"REQUEST_SUPPORT\",\"entities\":[]".data ++ ['}'])) ++ []) =
      some (.jobj [("intent", .jstr "REQUEST_SUPPORT"), ("entities", .jarr [])]) ∧
    extract_intent_and_entities
        (fun _ => .ok (String.mk ("Sure, here you go: ".data ++
          ('{' :: ("\"intent\":\"REQUEST_SUPPORT\",\"entities\":[]".data ++ ['}'])) ++ []))) =
      .jobj [("intent", .jstr "REQUEST_SUPPORT"), ("entities", .jarr [])] :=
  repair_recovers_braced_json "Sure, here you go: ".data
    "\"intent\":\"REQUEST_SUPPORT\",\"entities\":[]".data [] _
    (by decide) (by decide) rfl rfl

/-- Field lookup in a parsed JSON object, as Python's `dict.get`. -/
def jLookup (fs : List (String × JValue)) (k : String) : Option JValue :=
  match fs.find? (fun p => p.1 == k) with
  | some p => some p.2
  | none => none

/-- Modelled from the spec: an element of a valid `entities` value, a
`\x7btext, label\x7d` pair with string fields. -/
def isEntityPairJ : JValue → Bool
  | .jobj fs =>
    (match jLookup fs "text" with | some (.jstr _) => true | _ => false) &&
    (match jLookup fs "label" with | some (.jstr _) => true | _ => false)
  | _ => false

/-- Modelled from the spec (§4.4 step d): the shape the extractor is claimed
to validate before returning — an object with a string `intent` field and an
`entities` field that is a sequence of `\x7btext, label\x7d` pairs (absent
counts as empty).  This definition follows the spec's words, for comparison
against the source-derived extractor. -/
def specValidShape : JValue → Bool
  | .jobj fs =>
    (match jLookup fs "intent" with | some (.jstr _) => true | _ => false) &&
    (match jLookup fs "entities" with
     | none => true
     | some (.jarr es) => es.all isEntityPairJ
     | some _ => false)
  | _ => false

/-- Claim C4 counterexample: a response parsing to an object with neither an
`intent` string nor a well-shaped `entities` field is returned as-is by the
extractor, so a parsed JSON value that fails the spec's shape validation is
returned rather than counting as a failed attempt. -/
theorem no_shape_validation_counterexample :
    extract_intent_and_entities (fun _ => .ok "\x7b\"foo\": 1\x7d") =
      .jobj [("foo", .jnum "1")] ∧
    specValidShape (.jobj [("foo", .jnum "1")]) = false :=
  ⟨rfl, rfl⟩

/-- Claim C4 (amended): the extractor performs no shape validation at all —
whenever an attempt's response parses as JSON (directly here, on the first
attempt), the parsed value is returned unchanged, whatever its shape; values
lacking `intent` or `entities`, or that are not objects at all, are returned
rather than treated as failed attempts. -/
theorem extractor_returns_parsed_value_unvalidated
    (oracle : Nat → Except String String) (raw : String) (v : JValue)
    (h0 : oracle 0 = .ok raw) (hp : jsonLoads raw.data = some v) :
    extract_intent_and_entities oracle = v := by
  have hs : attemptResult (oracle 0) = some v := by
    rw [h0]
    simp only [attemptResult, attemptParse, hp]
  have := extractLoop_success oracle 0 3 0 v (by omega)
    (fun j hj => absurd hj (Nat.not_lt_zero j)) (by simpa using hs)
  simp only [extract_intent_and_entities, MAX_ATTEMPTS, this]

theorem extractor_returns_parsed_value_unvalidated_witness :
    extract_intent_and_entities (fun _ => .ok "[1, 2]") =
      .jarr [.jnum "1", .jnum "2"] :=
  extractor_returns_parsed_value_unvalidated (fun _ => .ok "[1, 2]") "[1, 2]"
    (.jarr [.jnum "1", .jnum "2"]) rfl rfl

/-- An extracted entity, the `text`/`label` dict shape that the extraction
prompt requests and that the store-level claims quantify over. -/
structure Entity where
  text : String
  label : String

/-- The single-quote character, written via its code point so that no string
literal in this file needs to contain a quote. -/
def squote : Char := Char.ofNat 39

/-- ASCII-printable test: Python's `str.isprintable` restricted to ASCII,
which covers every character the theorems below touch. -/
def pyPrintable (c : Char) : Bool := 32 ≤ c.toNat && c.toNat ≤ 126

def hexDigitC (n : Nat) : Char :=
  if n < 10 then Char.ofNat (48 + n) else Char.ofNat (97 + n - 10)

/-- One character of Python `repr` for a string delimited by quote `q`. -/
def pyEscapeChar (q : Char) (c : Char) : List Char :=
  if c = '\\' then ['\\', '\\']
  else if c = q then ['\\', q]
  else if c = '\n' then ['\\', 'n']
  else if c = '\r' then ['\\', 'r']
  else if c = '\t' then ['\\', 't']
  else if pyPrintable c then [c]
  else if c.toNat < 256 then ['\\', 'x', hexDigitC (c.toNat / 16), hexDigitC (c.toNat % 16)]
  else ['\\', 'u', hexDigitC (c.toNat / 4096 % 16), hexDigitC (c.toNat / 256 % 16),
    hexDigitC (c.toNat / 16 % 16), hexDigitC (c.toNat % 16)]

/-- Python `repr`'s quote choice: single quotes, unless the string contains a
single quote and no double quote. -/
def pyQuoteChoice (s : String) : Char :=
  if s.data.any (fun c => c == squote) && !(s.data.any (fun c => c == '"')) then '"' else squote

/-- Python `repr` of a string. -/
def pyReprStr (s : String) : List Char :=
  let q := pyQuoteChoice s
  q :: ((s.data.map (pyEscapeChar q)).flatten ++ [q])

/-- Python `repr` of one entity dict: keys `text` then `label` in insertion
order, with the `: ` and `, ` separators `str()` uses. -/
def pyReprEntity (e : Entity) : List Char :=
  '{' :: squote :: 't' :: 'e' :: 'x' :: 't' :: squote :: ':' :: ' ' ::
    (pyReprStr e.text ++ ',' :: ' ' :: squote :: 'l' :: 'a' :: 'b' :: 'e' :: 'l' :: squote ::
      ':' :: ' ' :: (pyReprStr e.label ++ ['}']))

/-- The comma-space join over rendered dicts that `str(list)` produces. -/
def pyJoinItems : List Entity → List Char
  | [] => []
  | [e] => pyReprEntity e
  | e :: rest => pyReprEntity e ++ ',' :: ' ' :: pyJoinItems rest

/-- Python `str(entities)` for a list of entity dicts. -/
def pyStrEntityList (es : List Entity) : List Char :=
  '[' :: (pyJoinItems es ++ [']'])

/-- `.replace` of every single quote by a double quote. -/
def pyReplaceQuotes (cs : List Char) : List Char :=
  cs.map (fun c => if c = squote then '"' else c)

/-- The value `store_transcription` writes to the `entities` column:
`str(nlp_result.get('entities', [])).replace(squote, dquote)`
(`intent_extraction.py` line 61, `intent_extraction_bu.py` line 185,
`intent_extraction_cont.py` line 157). -/
def entitiesColumn (es : List Entity) : String :=
  String.mk (pyReplaceQuotes (pyStrEntityList es))

example : entitiesColumn [] = "[]" := rfl
example : entitiesColumn [⟨"John", "PERSON"⟩] =
    "[\x7b\"text\": \"John\", \"label\": \"PERSON\"\x7d]" := rfl
example : entitiesColumn [⟨"a", "B"⟩, ⟨"c", "D"⟩] =
    "[\x7b\"text\": \"a\", \"label\": \"B\"\x7d, \x7b\"text\": \"c\", \"label\": \"D\"\x7d]" := rfl

/-- The dict returned by `transcribe_audio`. -/
structure TranscriptionResult where
  text : String
  language : String

/-- The `intent`/`entities` dict shape the store-level claims quantify over
(the `.get` defaults already resolved: `intent` defaults to `UNKNOWN`,
`entities` to the empty list, when a key is absent). -/
structure NlpResult where
  intent : String
  entities : List Entity

/-- One row of the `transcriptions` table as created by `_create_table`:
`id` is the PRIMARY KEY, `original_filename` carries no UNIQUE constraint,
`status` is CHECK-constrained.  `timestamp` stands for `datetime.now()`. -/
structure Row where
  id : String
  original_filename : String
  transcribed_text : String
  intent : String
  entities : String
  timestamp : Nat
  status : String
  resolution_notes : String

/-- SQLite `INSERT INTO transcriptions ...` against `_create_table`'s schema:
it fails only on an `id` primary-key collision or a `status` CHECK violation;
a duplicate `original_filename` is accepted. -/
def sqlInsertTranscription (tbl : List Row) (r : Row) : Except String (List Row) :=
  if tbl.any (fun q => q.id == r.id) then
    .error "UNIQUE constraint failed: transcriptions.id"
  else if !(r.status == "unresolved" || r.status == "in_progress" || r.status == "resolved") then
    .error "CHECK constraint failed: status"
  else .ok (tbl ++ [r])

/-- The row `store_transcription` builds and inserts. -/
def mkRow (uuid fname : String) (tr : TranscriptionResult) (nlp : NlpResult) (ts : Nat) : Row :=
  { id := uuid, original_filename := fname, transcribed_text := tr.text,
    intent := nlp.intent, entities := entitiesColumn nlp.entities,
    timestamp := ts, status := "unresolved", resolution_notes := "" }

/-- Embedding of `AudioProcessor.store_transcription` (`intent_extraction.py`
lines 53-81, `intent_extraction_bu.py` lines 172-205,
`intent_extraction_cont.py` lines 151-177): the fresh `str(uuid.uuid4())` and
`datetime.now()` are explicit parameters; the function inserts
unconditionally — it never looks at existing filenames — and returns the new
id. -/
def store_transcription (tbl : List Row) (uuid fname : String)
    (transcription : TranscriptionResult) (nlp_result : NlpResult) (ts : Nat) :
    Except String (String × List Row) :=
  match sqlInsertTranscription tbl (mkRow uuid fname transcription nlp_result ts) with
  | .error e => .error e
  | .ok tbl' => .ok (uuid, tbl')

/-- Number of stored rows carrying a given `original_filename`. -/
def countFilename (tbl : List Row) (f : String) : Nat :=
  (tbl.filter (fun r => r.original_filename == f)).length

/-- A concrete pre-existing record for `a.wav`. -/
def rowA : Row :=
  { id := "0c0de5c1-1111-2222-3333-444444444444", original_filename := "a.wav",
    transcribed_text := "hello", intent := "OTHER", entities := "[]",
    timestamp := 0, status := "unresolved", resolution_notes := "" }

/-- Claim C5 counterexample: with a record for `a.wav` already stored,
`store_transcription` of a second record for the same filename under a fresh
uuid succeeds — no duplicate error is raised — and the table ends up holding
two rows for `a.wav`: the schema's only uniqueness gate is the `id` key, so
`create` is not an authoritative uniqueness gate for the filename. -/
theorem create_accepts_duplicate_filename_counterexample :
    store_transcription [rowA] "7c9e6679-7425-40de-944b-e07fc1f90ae7" "a.wav"
        ⟨"hi", "en"⟩ ⟨"OTHER", []⟩ 1 =
      .ok ("7c9e6679-7425-40de-944b-e07fc1f90ae7",
        [rowA,
          mkRow "7c9e6679-7425-40de-944b-e07fc1f90ae7" "a.wav" ⟨"hi", "en"⟩ ⟨"OTHER", []⟩ 1]) ∧
    countFilename
        [rowA, mkRow "7c9e6679-7425-40de-944b-e07fc1f90ae7" "a.wav" ⟨"hi", "en"⟩ ⟨"OTHER", []⟩ 1]
        "a.wav" = 2 :=
  ⟨rfl, rfl⟩

/-- Claim C5 (amended): the record-creation operation enforces uniqueness
only on the generated `id` primary key, never on `original_filename`.
Whenever the fresh uuid collides with no stored id, the insert succeeds even
if a record with the same filename is already present, and the filename's row
count grows by one — so the caller's prior exists-check, not `create`, is the
only dedup gate for the filename key. -/
theorem store_transcription_id_only_gate (tbl : List Row) (uuid fname : String)
    (tr : TranscriptionResult) (nlp : NlpResult) (ts : Nat)
    (hid : tbl.all (fun r => !(r.id == uuid)) = true) :
    store_transcription tbl uuid fname tr nlp ts =
      .ok (uuid, tbl ++ [mkRow uuid fname tr nlp ts]) ∧
    countFilename (tbl ++ [mkRow uuid fname tr nlp ts]) fname =
      countFilename tbl fname + 1 := by
  have hany : tbl.any (fun q => q.id == (mkRow uuid fname tr nlp ts).id) = false := by
    rw [List.any_eq_false]
    intro r hr
    have := List.all_eq_true.mp hid r hr
    simpa [mkRow] using this
  have hins : sqlInsertTranscription tbl (mkRow uuid fname tr nlp ts) =
      .ok (tbl ++ [mkRow uuid fname tr nlp ts]) := by
    unfold sqlInsertTranscription
    rw [hany]
    simp [mkRow]
  constructor
  · simp [store_transcription, hins]
  · simp [countFilename, List.filter_append, mkRow]

theorem store_transcription_id_only_gate_witness :
    store_transcription [rowA] "7c9e6679-7425-40de-944b-e07fc1f90ae7" "a.wav"
        ⟨"hi", "en"⟩ ⟨"OTHER", []⟩ 2 =
      .ok ("7c9e6679-7425-40de-944b-e07fc1f90ae7",
        [rowA] ++ [mkRow "7c9e6679-7425-40de-944b-e07fc1f90ae7" "a.wav" ⟨"hi", "en"⟩ ⟨"OTHER", []⟩ 2]) ∧
    countFilename
        ([rowA] ++ [mkRow "7c9e6679-7425-40de-944b-e07fc1f90ae7" "a.wav" ⟨"hi", "en"⟩ ⟨"OTHER", []⟩ 2])
        "a.wav" =
      countFilename [rowA] "a.wav" + 1 :=
  store_transcription_id_only_gate [rowA] "7c9e6679-7425-40de-944b-e07fc1f90ae7" "a.wav"
    ⟨"hi", "en"⟩ ⟨"OTHER", []⟩ 2 rfl

/-- Characters that pass through both Python `repr` and the global quote
replacement unchanged, and need no JSON string escaping: printable ASCII
other than the two quotes and backslash. -/
def jsonSafeChar (c : Char) : Bool :=
  pyPrintable c && !(c == squote) && !(c == '"') && !(c == '\\')

def jsonSafeStr (s : String) : Bool := s.data.all jsonSafeChar

/-- The parsed-JSON image of one stored entity. -/
def entityJ (e : Entity) : JValue :=
  .jobj [("text", .jstr e.text), ("label", .jstr e.label)]

theorem flattenMapSingleton (f : Char → List Char) (l : List Char)
    (h : ∀ c ∈ l, f c = [c]) : (l.map f).flatten = l := by
  induction l with
  | nil => rfl
  | cons c t ih =>
    simp [h c (List.mem_cons_self c t), ih (fun x hx => h x (List.mem_cons_of_mem c hx))]

theorem jsonSafeChar_spec (c : Char) (h : jsonSafeChar c = true) :
    (32 ≤ c.toNat ∧ c.toNat ≤ 126) ∧ ¬(c = squote) ∧ ¬(c = '"') ∧ ¬(c = '\\') := by
  simp only [jsonSafeChar, pyPrintable, Bool.and_eq_true, Bool.not_eq_true',
    beq_eq_false_iff_ne, ne_eq, decide_eq_true_eq] at h
  tauto

theorem pyEscapeChar_safe (c : Char) (h : jsonSafeChar c = true) :
    pyEscapeChar squote c = [c] := by
  obtain ⟨⟨hp1, hp2⟩, hs, hq, hb⟩ := jsonSafeChar_spec c h
  have hn : ¬(c = '\n') := by intro e; subst e; simp at hp1
  have hr : ¬(c = '\r') := by intro e; subst e; simp at hp1
  have ht : ¬(c = '\t') := by intro e; subst e; simp at hp1
  have hpr : pyPrintable c = true := by
    simp only [pyPrintable, Bool.and_eq_true, decide_eq_true_eq]
    exact ⟨hp1, hp2⟩
  simp [pyEscapeChar, hb, hs, hn, hr, ht, hpr]

theorem pyQuoteChoice_safe (s : String) (h : ∀ c ∈ s.data, jsonSafeChar c = true) :
    pyQuoteChoice s = squote := by
  have hq : s.data.any (fun c => c == squote) = false := by
    rw [List.any_eq_false]
    intro c hc
    have := (jsonSafeChar_spec c (h c hc)).2.1
    simpa using this
  simp [pyQuoteChoice, hq]

theorem pyReprStr_safe (s : String) (h : ∀ c ∈ s.data, jsonSafeChar c = true) :
    pyReprStr s = squote :: (s.data ++ [squote]) := by
  have hq := pyQuoteChoice_safe s h
  have hflat := flattenMapSingleton (pyEscapeChar squote) s.data
    (fun c hc => pyEscapeChar_safe c (h c hc))
  simp [pyReprStr, hq, hflat]

theorem pyReplaceQuotes_safe (l : List Char) (h : ∀ c ∈ l, jsonSafeChar c = true) :
    l.map (fun c => if c = squote then '"' else c) = l := by
  induction l with
  | nil => rfl
  | cons c t ih =>
    have hc := (jsonSafeChar_spec c (h c (List.mem_cons_self c t))).2.1
    simp [hc, ih (fun x hx => h x (List.mem_cons_of_mem c hx))]

/-- The double-quoted JSON text of one stored entity, exactly as the quote
replacement leaves it. -/
def jsonEntityBytes (e : Entity) : List Char :=
  '{' :: '"' :: 't' :: 'e' :: 'x' :: 't' :: '"' :: ':' :: ' ' :: '"' ::
    (e.text.data ++ '"' :: ',' :: ' ' :: '"' :: 'l' :: 'a' :: 'b' :: 'e' :: 'l' :: '"' ::
      ':' :: ' ' :: '"' :: (e.label.data ++ ['"', '}']))

/-- The stored items between the brackets, after quote replacement. -/
def jsonItemsBytes : List Entity → List Char
  | [] => []
  | [e] => jsonEntityBytes e
  | e :: rest => jsonEntityBytes e ++ ',' :: ' ' :: jsonItemsBytes rest

theorem render_entity_safe (e : Entity)
    (ht : ∀ c ∈ e.text.data, jsonSafeChar c = true)
    (hl : ∀ c ∈ e.label.data, jsonSafeChar c = true) :
    pyReplaceQuotes (pyReprEntity e) = jsonEntityBytes e := by
  have h1 := pyReplaceQuotes_safe e.text.data ht
  have h2 := pyReplaceQuotes_safe e.label.data hl
  simp only [squote] at h1 h2
  simp [pyReprEntity, pyReplaceQuotes, pyReprStr_safe _ ht, pyReprStr_safe _ hl,
    jsonEntityBytes, squote, h1, h2]

theorem render_items_safe (es : List Entity)
    (h : ∀ e ∈ es, (∀ c ∈ e.text.data, jsonSafeChar c = true) ∧
      (∀ c ∈ e.label.data, jsonSafeChar c = true)) :
    pyReplaceQuotes (pyJoinItems es) = jsonItemsBytes es := by
  induction es with
  | nil => rfl
  | cons e tl ih =>
    obtain ⟨ht, hl⟩ := h e (List.mem_cons_self e tl)
    have ihtl := ih (fun x hx => h x (List.mem_cons_of_mem e hx))
    cases tl with
    | nil =>
      simp only [pyJoinItems]
      exact render_entity_safe e ht hl
    | cons e2 tl2 =>
      have hxe := render_entity_safe e ht hl
      calc pyReplaceQuotes (pyJoinItems (e :: e2 :: tl2))
          = pyReplaceQuotes (pyReprEntity e) ++
              ',' :: ' ' :: pyReplaceQuotes (pyJoinItems (e2 :: tl2)) := by
            simp [pyJoinItems, pyReplaceQuotes, squote]
        _ = jsonEntityBytes e ++ ',' :: ' ' :: jsonItemsBytes (e2 :: tl2) := by
            rw [hxe, ihtl]
        _ = jsonItemsBytes (e :: e2 :: tl2) := by simp [jsonItemsBytes]

theorem strMkData (s : String) : String.mk s.data = s := rfl

theorem parseStrBody_safe (s r : List Char) (h : ∀ c ∈ s, jsonSafeChar c = true) :
    parseStrBody (s ++ '"' :: r) = some (s, r) := by
  induction s with
  | nil =>
    rw [parseStrBody.eq_def]
    simp
  | cons c t ih =>
    obtain ⟨⟨hp1, _⟩, _, hq, hb⟩ := jsonSafeChar_spec c (h c (List.mem_cons_self c t))
    have ih' := ih (fun x hx => h x (List.mem_cons_of_mem c hx))
    rw [List.cons_append, parseStrBody.eq_def]
    simp [hq, hb, Nat.not_lt.mpr hp1, ih']

theorem parseVal_ws (f : Nat) (cs : List Char) :
    parseVal f (' ' :: cs) = parseVal f cs := by
  cases f with
  | zero => rfl
  | succ g => simp [parseVal, skipWs]

theorem parseArrRest_ws (f : Nat) (acc : List JValue) (cs : List Char) :
    parseArrRest f acc (' ' :: cs) = parseArrRest f acc cs := by
  cases f with
  | zero => rfl
  | succ g => simp [parseArrRest, parseVal_ws]

theorem parseVal_entity (f : Nat) (e : Entity) (r : List Char)
    (ht : ∀ c ∈ e.text.data, jsonSafeChar c = true)
    (hl : ∀ c ∈ e.label.data, jsonSafeChar c = true) :
    parseVal (f + 5) (jsonEntityBytes e ++ r) = some (entityJ e, r) := by
  have k2 : ∀ r' : List Char, parseStrBody (e.text.data ++ '"' :: r') = some (e.text.data, r') :=
    fun r' => parseStrBody_safe e.text.data r' ht
  have k3 : ∀ r' : List Char, parseStrBody (e.label.data ++ '"' :: r') = some (e.label.data, r') :=
    fun r' => parseStrBody_safe e.label.data r' hl
  simp [jsonEntityBytes, parseVal, parseObjElems, parseObjRest, parseStrBody, skipWs,
    k2, k3, entityJ, strMkData]

theorem jsonItemsBytes_length_ge (es : List Entity) :
    es.length ≤ (jsonItemsBytes es).length := by
  induction es with
  | nil => simp [jsonItemsBytes]
  | cons e tl ih =>
    cases tl with
    | nil => simp [jsonItemsBytes, jsonEntityBytes]
    | cons e2 tl2 =>
      simp only [jsonItemsBytes, List.length_append, List.length_cons]
      simp only [List.length_cons] at ih
      have : 1 ≤ (jsonEntityBytes e).length := by simp [jsonEntityBytes]
      omega

theorem parseArrRest_entities (es : List Entity) :
    ∀ f acc r, (∀ e ∈ es, (∀ c ∈ e.text.data, jsonSafeChar c = true) ∧
        (∀ c ∈ e.label.data, jsonSafeChar c = true)) →
      2 * es.length + 6 ≤ f → es ≠ [] →
      parseArrRest f acc (jsonItemsBytes es ++ ']' :: r) =
        some (.jarr (acc ++ es.map entityJ), r) := by
  induction es with
  | nil => intro f acc r _ _ hne; exact absurd rfl hne
  | cons e tl ih =>
    intro f acc r hsafe hf _
    obtain ⟨g, rfl⟩ : ∃ g, f = g + 1 := ⟨f - 1, by omega⟩
    obtain ⟨ht, hl⟩ := hsafe e (List.mem_cons_self e tl)
    cases tl with
    | nil =>
      have hv : parseVal g (jsonEntityBytes e ++ ']' :: r) = some (entityJ e, ']' :: r) := by
        obtain ⟨g5, rfl⟩ : ∃ g5, g = g5 + 5 := ⟨g - 5, by omega⟩
        exact parseVal_entity g5 e (']' :: r) ht hl
      simp [jsonItemsBytes, parseArrRest, hv, skipWs]
    | cons e2 tl2 =>
      have hv : parseVal g (jsonEntityBytes e ++
          (',' :: ' ' :: (jsonItemsBytes (e2 :: tl2) ++ ']' :: r))) =
          some (entityJ e, ',' :: ' ' :: (jsonItemsBytes (e2 :: tl2) ++ ']' :: r)) := by
        obtain ⟨g5, hg5⟩ : ∃ g5, g = g5 + 5 := ⟨g - 5, by omega⟩
        rw [hg5]
        exact parseVal_entity g5 e _ ht hl
      have hitems : jsonItemsBytes (e :: e2 :: tl2) ++ ']' :: r =
          jsonEntityBytes e ++ (',' :: ' ' :: (jsonItemsBytes (e2 :: tl2) ++ ']' :: r)) := by
        simp [jsonItemsBytes]
      rw [hitems]
      have hih := ih g (acc ++ [entityJ e]) r
        (fun x hx => hsafe x (List.mem_cons_of_mem e hx))
        (by simp at hf ⊢; omega) (by simp)
      have s1 : parseArrRest (g + 1) acc
          (jsonEntityBytes e ++ (',' :: ' ' :: (jsonItemsBytes (e2 :: tl2) ++ ']' :: r))) =
          parseArrRest g (acc ++ [entityJ e])
            (' ' :: (jsonItemsBytes (e2 :: tl2) ++ ']' :: r)) := by
        simp [parseArrRest, hv, skipWs]
      rw [s1, parseArrRest_ws, hih]
      simp

theorem jsonItemsBytes_cons_shape (e : Entity) (tl : List Entity) :
    ∃ t, jsonItemsBytes (e :: tl) = '{' :: t := by
  cases tl with
  | nil => exact ⟨_, rfl⟩
  | cons e2 tl2 => exact ⟨_, rfl⟩

theorem jsonLoads_arr_entities (es : List Entity)
    (hsafe : ∀ e ∈ es, (∀ c ∈ e.text.data, jsonSafeChar c = true) ∧
      (∀ c ∈ e.label.data, jsonSafeChar c = true)) :
    jsonLoads ('[' :: (jsonItemsBytes es ++ [']'])) = some (.jarr (es.map entityJ)) := by
  cases es with
  | nil => rfl
  | cons e tl =>
    obtain ⟨t, ht⟩ := jsonItemsBytes_cons_shape e tl
    have hlen := jsonItemsBytes_length_ge (e :: tl)
    set X : List Char := jsonItemsBytes (e :: tl) with hX
    have hne : X.length = t.length + 1 := by rw [ht]; simp
    unfold jsonLoads
    have hfuel : 4 * ('[' :: (X ++ [']'])).length + 4 =
        (4 * X.length + 10) + 2 := by simp; omega
    rw [hfuel]
    have step1 : parseVal ((4 * X.length + 10) + 2) ('[' :: (X ++ [']'])) =
        parseArrElems ((4 * X.length + 10) + 1) (X ++ [']']) := by
      simp [parseVal, skipWs]
    rw [step1]
    have step2 : parseArrElems ((4 * X.length + 10) + 1) (X ++ [']']) =
        parseArrRest (4 * X.length + 10) [] (X ++ [']']) := by
      rw [ht]
      simp [parseArrElems, skipWs]
    rw [step2]
    have step3 := parseArrRest_entities (e :: tl) (4 * X.length + 10) [] [] hsafe
      (by simp at hlen ⊢; omega) (by simp)
    simp only [← hX] at step3
    have : (X ++ [']'] : List Char) = X ++ ']' :: [] := rfl
    rw [this, step3]
    simp [skipWs]

theorem entitiesColumn_data (es : List Entity)
    (hsafe : ∀ e ∈ es, (∀ c ∈ e.text.data, jsonSafeChar c = true) ∧
      (∀ c ∈ e.label.data, jsonSafeChar c = true)) :
    (entitiesColumn es).data = '[' :: (jsonItemsBytes es ++ [']']) := by
  have hr := render_items_safe es hsafe
  show pyReplaceQuotes (pyStrEntityList es) = _
  simp only [pyReplaceQuotes, squote] at hr
  simp [pyStrEntityList, pyReplaceQuotes, squote, hr]

/-- Claim C8 counterexample: an entity text containing a single quote.  The
stored column value is built by `str(...)` followed by a global replacement of
every single quote by a double quote, so the quote inside the text becomes an
unescaped double quote and the stored string is not valid JSON: parsing it
fails, against the claim that parsing always succeeds for every possible
entities value. -/
theorem entities_column_quote_counterexample :
    jsonLoads (entitiesColumn [⟨String.mk ['i', 't', squote, 's'], "X"⟩]).data = none ∧
    entitiesColumn [⟨String.mk ['i', 't', squote, 's'], "X"⟩] =
      "[\x7b\"text\": \"it\"s\", \"label\": \"X\"\x7d]" :=
  ⟨rfl, rfl⟩

/-- Claim C8 (amended): for entities whose `text` and `label` consist of
printable ASCII free of quote characters and backslashes, the value written
to the `entities` column is a JSON-encoded array of `text`/`label` objects:
parsing the stored string as JSON succeeds and yields exactly the entities
sequence.  (The restriction is forced: a quote character in an entity text
survives `str()` and the global quote replacement as an unescaped double
quote, breaking the encoding — see the counterexample.) -/
theorem entities_column_roundtrip (es : List Entity)
    (hsafe : ∀ e ∈ es, (∀ c ∈ e.text.data, jsonSafeChar c = true) ∧
      (∀ c ∈ e.label.data, jsonSafeChar c = true)) :
    jsonLoads (entitiesColumn es).data = some (.jarr (es.map entityJ)) := by
  rw [entitiesColumn_data es hsafe]
  exact jsonLoads_arr_entities es hsafe

theorem entities_column_roundtrip_witness :
    jsonLoads (entitiesColumn [⟨"John Smith", "PERSON"⟩, ⟨"Acme Corp.", "ORG"⟩]).data =
      some (.jarr [entityJ ⟨"John Smith", "PERSON"⟩, entityJ ⟨"Acme Corp.", "ORG"⟩]) :=
  entities_column_roundtrip [⟨"John Smith", "PERSON"⟩, ⟨"Acme Corp.", "ORG"⟩]
    (by decide)

/-- Environment outcome for one file considered by `monitor_folder`
(`intent_extraction_cont.py` lines 206-228): `process_audio` may raise in
`transcribe_audio` (vanished or unreadable file), or it transcribes and
extracts, yielding the transcription, the extraction result, the fresh uuid
and the timestamp used by `store_transcription`.  `os.rename` only moves the
file between folders and never touches the table, so this table-level model
omits the folders. -/
inductive FileOutcome where
  | transcribeFail : FileOutcome
  | success : TranscriptionResult → NlpResult → String → Nat → FileOutcome

/-- `filename.lower().endswith(('.wav', '.mp3', '.m4a', '.flac'))`. -/
def hasAudioExt (f : String) : Bool :=
  (f.toLower.endsWith ".wav" || f.toLower.endsWith ".mp3" ||
    f.toLower.endsWith ".m4a" || f.toLower.endsWith ".flac")

/-- `AudioProcessor._is_file_processed`: `SELECT COUNT(*) FROM
transcriptions_cont WHERE original_filename = ?` compared with zero. -/
def is_file_processed (tbl : List Row) (f : String) : Bool :=
  decide (0 < countFilename tbl f)

/-- One per-file step of `monitor_folder`'s tick loop: skip filenames without
an audio extension; skip filenames already recorded; otherwise run
`process_audio` inside the loop's `try/except` — a transcription failure
leaves the table unchanged, a successful transcription inserts exactly one
row, and a failing insert (uuid collision) raises into the `except` clause,
also leaving the table unchanged. -/
def stepFile (tbl : List Row) (ev : String × FileOutcome) : List Row :=
  if !(hasAudioExt ev.1) then tbl
  else if is_file_processed tbl ev.1 then tbl
  else match ev.2 with
    | .transcribeFail => tbl
    | .success tr nlp uuid ts =>
      match store_transcription tbl uuid ev.1 tr nlp ts with
      | .error _ => tbl
      | .ok (_, tbl') => tbl'

/-- Any number of per-file steps, across any number of ticks of the polling
loop (a tick is a contiguous chunk of events in listing order). -/
def runEvents (tbl : List Row) : List (String × FileOutcome) → List Row
  | [] => tbl
  | ev :: rest => runEvents (stepFile tbl ev) rest

theorem sqlInsert_ok_shape (tbl : List Row) (r : Row) (t2 : List Row)
    (h : sqlInsertTranscription tbl r = .ok t2) : t2 = tbl ++ [r] := by
  unfold sqlInsertTranscription at h
  split at h
  · simp at h
  · split at h
    · simp at h
    · injection h with h2
      exact h2.symm

theorem store_transcription_ok_shape (tbl : List Row) (uuid f : String)
    (tr : TranscriptionResult) (nlp : NlpResult) (ts : Nat) (u : String) (tbl' : List Row)
    (h : store_transcription tbl uuid f tr nlp ts = .ok (u, tbl')) :
    tbl' = tbl ++ [mkRow uuid f tr nlp ts] := by
  unfold store_transcription at h
  cases hins : sqlInsertTranscription tbl (mkRow uuid f tr nlp ts) with
  | error e => rw [hins] at h; simp at h
  | ok t2 =>
    rw [hins] at h
    simp at h
    rw [← h.2]
    exact sqlInsert_ok_shape tbl (mkRow uuid f tr nlp ts) t2 hins

theorem countFilename_append_single (tbl : List Row) (r : Row) (f : String) :
    countFilename (tbl ++ [r]) f =
      countFilename tbl f + (if r.original_filename = f then 1 else 0) := by
  simp only [countFilename, List.filter_append]
  by_cases hr : r.original_filename = f
  · simp [hr]
  · simp [hr]

theorem stepFile_count_le (tbl : List Row) (ev : String × FileOutcome) (f : String)
    (h : countFilename tbl f ≤ 1) : countFilename (stepFile tbl ev) f ≤ 1 := by
  obtain ⟨fn, oc⟩ := ev
  by_cases hext : !(hasAudioExt fn)
  · simp [stepFile, hext]; exact h
  · by_cases hproc : is_file_processed tbl fn
    · simp [stepFile, hext, hproc]; exact h
    · cases oc with
      | transcribeFail => simp [stepFile, hext, hproc]; exact h
      | success tr nlp uuid ts =>
        simp only [stepFile, hext, hproc, Bool.false_eq_true, if_false]
        cases hst : store_transcription tbl uuid fn tr nlp ts with
        | error e => simp only []; exact h
        | ok p =>
          obtain ⟨u, tbl'⟩ := p
          simp only []
          have hshape := store_transcription_ok_shape tbl uuid fn tr nlp ts u tbl' hst
          subst hshape
          rw [countFilename_append_single]
          by_cases hf : fn = f
          · subst hf
            have hzero : countFilename tbl fn = 0 := by
              simp [is_file_processed] at hproc
              omega
            simp [mkRow, hzero]
          · simp [mkRow, hf]
            omega

theorem stepFile_count_ge (tbl : List Row) (ev : String × FileOutcome) (f : String) :
    countFilename tbl f ≤ countFilename (stepFile tbl ev) f := by
  obtain ⟨fn, oc⟩ := ev
  by_cases hext : !(hasAudioExt fn)
  · simp [stepFile, hext]
  · by_cases hproc : is_file_processed tbl fn
    · simp [stepFile, hext, hproc]
    · cases oc with
      | transcribeFail => simp [stepFile, hext, hproc]
      | success tr nlp uuid ts =>
        simp only [stepFile, hext, hproc, Bool.false_eq_true, if_false]
        cases hst : store_transcription tbl uuid fn tr nlp ts with
        | error e => simp only []; exact Nat.le_refl _
        | ok p =>
          obtain ⟨u, tbl'⟩ := p
          simp only []
          have hshape := store_transcription_ok_shape tbl uuid fn tr nlp ts u tbl' hst
          subst hshape
          rw [countFilename_append_single]
          omega

set_option maxHeartbeats 1000000 in
theorem runEvents_count_le (evs : List (String × FileOutcome)) :
    ∀ tbl f, countFilename tbl f ≤ 1 → countFilename (runEvents tbl evs) f ≤ 1 := by
  induction evs with
  | nil => intro tbl f h; exact h
  | cons ev rest ih =>
    intro tbl f h
    simp only [runEvents]
    exact ih (stepFile tbl ev) f (stepFile_count_le tbl ev f h)

set_option maxHeartbeats 1000000 in
theorem runEvents_count_ge (evs : List (String × FileOutcome)) :
    ∀ tbl f, countFilename tbl f ≤ countFilename (runEvents tbl evs) f := by
  induction evs with
  | nil => intro tbl f; exact Nat.le_refl _
  | cons ev rest ih =>
    intro tbl f
    simp only [runEvents]
    exact Nat.le_trans (stepFile_count_ge tbl ev f) (ih (stepFile tbl ev) f)

/-- Claim C6: across any sequence of per-file steps of the polling loop
starting from an empty store, at most one record per filename ever exists; a
step whose exists-check finds the filename already recorded changes nothing;
and once a filename's record exists (count one), every later sequence of
steps preserves exactly one record for it. -/
theorem monitor_folder_dedup (evs : List (String × FileOutcome)) (f : String) :
    countFilename (runEvents [] evs) f ≤ 1 ∧
    (∀ tbl ev, is_file_processed tbl ev.1 = true → stepFile tbl ev = tbl) ∧
    (∀ tbl, countFilename tbl f = 1 → countFilename (runEvents tbl evs) f = 1) := by
  refine ⟨?_, ?_, ?_⟩
  · exact runEvents_count_le evs [] f (by simp [countFilename])
  · intro tbl ev hproc
    by_cases hext : !(hasAudioExt ev.1)
    · simp [stepFile, hext]
    · simp [stepFile, hext, hproc]
  · intro tbl h1
    have hle := runEvents_count_le evs tbl f (by omega)
    have hge := runEvents_count_ge evs tbl f
    omega

/-- A concrete successful-processing event for `n.wav`. -/
def evN : String × FileOutcome :=
  ("n.wav", .success ⟨"hello world", "en"⟩ ⟨"GENERAL_INQUIRY", []⟩
    "5b2a7c1e-0000-1111-2222-333333333333" 7)

theorem monitor_folder_dedup_witness :
    countFilename (runEvents [] [evN, evN]) "n.wav" ≤ 1 ∧
    stepFile [rowA] ("a.wav", FileOutcome.transcribeFail) = [rowA] ∧
    countFilename (runEvents [rowA] [evN, evN]) "a.wav" = 1 := by
  have h1 := monitor_folder_dedup [evN, evN] "n.wav"
  have h2 := monitor_folder_dedup [evN, evN] "a.wav"
  refine ⟨h1.1, ?_, ?_⟩
  · exact h1.2.1 [rowA] ("a.wav", FileOutcome.transcribeFail) (by decide)
  · exact h2.2.2 [rowA] (by decide)

/-- The fixed part of the extraction prompt before the interpolated input
text (`intent_extraction.py` line 154, identically in
`intent_extraction_bu.py` and `intent_extraction_cont.py`). -/
def promptPre : String := "Given the text: \""

/-- The fixed part of the extraction prompt after the interpolated input
text (`intent_extraction.py` lines 154-175), byte for byte: the closing
quote, the task list with the four intent categories, and the JSON response
template. -/
def promptSuf : String := "\"\n                    Perform these tasks:\n                    1. Identify the primary intent of the text. Choose from these categories:\n                    - SCHEDULE_MAINTAINCE\n                    - REQUEST_SUPPORT\n                    - GENERAL_INQUIRY\n                    - OTHER\n\n                    2. List important named entities with their types.\n\n                    Respond EXACTLY in this JSON format:\n                    \x7b\n                        \"intent\": \"INTENT_CATEGORY\",\n                        \"entities\": [\n                            \x7b\n                                \"text\": \"Entity Name\",\n                                \"label\": \"Entity Type\"\n                            \x7d\n                        ]\n                    \x7d\n\n                    If unsure, use \"OTHER\" for intent and leave entities as an empty list."

/-- The prompt `extract_intent_and_entities` sends to `ollama.chat` for a
given input text: the f-string of `intent_extraction.py` lines 154-175. -/
def extractionPrompt (text : String) : String := promptPre ++ text ++ promptSuf

/-- Substring test over character lists (used to state what the prompt
contains). -/
def containsSub : List Char → List Char → Bool
  | [], sub => sub.isEmpty
  | c :: t, sub => sub.isPrefixOf (c :: t) || containsSub t sub

theorem containsSub_append_right (a b sub : List Char)
    (h : containsSub b sub = true) : containsSub (a ++ b) sub = true := by
  induction a with
  | nil => simpa using h
  | cons c t ih => simp [containsSub, ih]

theorem strDataAppend (a b : String) : (a ++ b).data = a.data ++ b.data := by
  cases a
  cases b
  rfl

set_option maxRecDepth 8192 in
/-- Claim C9 counterexample: the prompt built for the concrete input `hello`
nowhere contains the label `SCHEDULE_MAINTENANCE` named by the claim — the
template misspells it. -/
theorem prompt_misspelling_counterexample :
    containsSub (extractionPrompt "hello").data "SCHEDULE_MAINTENANCE".data = false := by
  decide

set_option maxRecDepth 8192 in
/-- Claim C9 (amended): for every input text, the fixed-template instruction
the extractor sends lists the category choices `SCHEDULE_MAINTAINCE` (sic —
the source misspells "maintenance", identically in all three copies of the
template), `REQUEST_SUPPORT`, `GENERAL_INQUIRY` and `OTHER` for the intent
field, and the spec's correctly spelled `SCHEDULE_MAINTENANCE` never occurs
in the template. -/
theorem prompt_lists_misspelled_taxonomy (text : String) :
    containsSub (extractionPrompt text).data "SCHEDULE_MAINTAINCE".data = true ∧
    containsSub (extractionPrompt text).data "REQUEST_SUPPORT".data = true ∧
    containsSub (extractionPrompt text).data "GENERAL_INQUIRY".data = true ∧
    containsSub (extractionPrompt text).data "OTHER".data = true ∧
    containsSub promptSuf.data "SCHEDULE_MAINTENANCE".data = false := by
  have hd : (extractionPrompt text).data =
      promptPre.data ++ (text.data ++ promptSuf.data) := by
    simp [extractionPrompt, strDataAppend]
  refine ⟨?_, ?_, ?_, ?_, by decide⟩
  · rw [hd]
    exact containsSub_append_right _ _ _ (containsSub_append_right _ _ _ (by decide))
  · rw [hd]
    exact containsSub_append_right _ _ _ (containsSub_append_right _ _ _ (by decide))
  · rw [hd]
    exact containsSub_append_right _ _ _ (containsSub_append_right _ _ _ (by decide))
  · rw [hd]
    exact containsSub_append_right _ _ _ (containsSub_append_right _ _ _ (by decide))

/-- Environment outcome for one candidate in `files_processer.main`'s loop:
the file may vanish between the `os.path.isfile` check and the transcription
(`transcribe_audio` then raises `FileNotFoundError`), or processing runs
through with the given transcription, extraction result, fresh uuid and
timestamp. -/
inductive FPOutcome where
  | vanished : FPOutcome
  | processed : TranscriptionResult → NlpResult → String → Nat → FPOutcome

/-- The dict returned by the async `AudioProcessor.process_audio`
(`intent_extraction.py` lines 273-295). -/
structure ProcessResult where
  transcription_id : String
  text : String
  intent : String
  entities : List Entity

/-- Embedding of the async `AudioProcessor.process_audio`
(`intent_extraction.py` lines 273-295): transcription (raising
`FileNotFoundError` if the path no longer resolves), extraction, store;
any exception propagates to the caller. -/
def process_audio (tbl : List Row) (path fname : String) (oc : FPOutcome) :
    Except String (ProcessResult × List Row) :=
  match oc with
  | .vanished => .error ("FileNotFoundError: Audio file not found: " ++ path)
  | .processed tr nlp uuid ts =>
    match store_transcription tbl uuid fname tr nlp ts with
    | .error e => .error e
    | .ok (tid, tbl') =>
      .ok (⟨tid, tr.text, nlp.intent, nlp.entities⟩, tbl')

/-- One tick of `files_processer.main`'s `while True` loop over one directory
listing (`files_processer.py` lines 108-117): for each listed regular file
whose name the `transcriptions_async` dedup table does not hold,
`process_file` — and through it `process_audio` — is awaited with no
`try/except` around it, so an exception aborts the whole tick and propagates
out of the loop; the insert into the dedup table is commented out
(line 114), so `asyncDb` never grows. -/
def fpTick (folder : String) (asyncDb : List String) :
    List Row → List (String × FPOutcome) → Except String (List Row)
  | tbl, [] => .ok tbl
  | tbl, (fname, oc) :: rest =>
    if asyncDb.contains fname then fpTick folder asyncDb tbl rest
    else
      match process_audio tbl (folder ++ "/" ++ fname) fname oc with
      | .error e => .error e
      | .ok (_, tbl') => fpTick folder asyncDb tbl' rest

/-- Claim C7 (code bug): in `files_processer.py` the per-file call is not
wrapped in any `try/except`, so a transcription failure for one file — here
`ghost.wav`, which vanished between the directory listing and the
transcription — propagates out of the candidate loop: the tick aborts with
the `FileNotFoundError`, the remaining candidate `good.wav` is never
processed this tick, and the exception terminates the `while True` polling
loop.  The sibling loop `monitor_folder` in `intent_extraction_cont.py`
catches per-file errors and continues, which is the containment the spec
describes. -/
theorem files_processer_tick_crashes :
    fpTick "data" [] []
        [("ghost.wav", .vanished),
          ("good.wav", .processed ⟨"hi", "en"⟩ ⟨"OTHER", []⟩
            "9a1b2c3d-4444-5555-6666-777777777777" 3)] =
      .error "FileNotFoundError: Audio file not found: data/ghost.wav" :=
  rfl

/-- The dict returned by the synchronous `AudioProcessor.process_audio`
(`intent_extraction_bu.py` lines 228-233). -/
structure ProcessResultBU where
  transcription_id : String
  text : String
  intent : String
  entities : List Entity

/-- Embedding of the synchronous `AudioProcessor.process_audio`
(`intent_extraction_bu.py` lines 207-233): after transcription, extraction
and the store, the returned dict's `transcription_id` entry is the string
literal `transcription_id` (line 229), not the variable holding the stored
record's fresh uuid. -/
def process_audio_bu (tbl : List Row) (fname : String) (tr : TranscriptionResult)
    (nlp : NlpResult) (uuid : String) (ts : Nat) :
    Except String (ProcessResultBU × List Row) :=
  match store_transcription tbl uuid fname tr nlp ts with
  | .error e => .error e
  | .ok (_, tbl') =>
    .ok (⟨"transcription_id", tr.text, nlp.intent, nlp.entities⟩, tbl')

/-- Claim C10: for every successful call to the synchronous `process_audio`,
the returned `transcription_id` field equals the literal string
`transcription_id`; the record was actually stored as a new row whose id is
the fresh uuid; and since `str(uuid.uuid4())` is 36 characters long while the
literal has 16, the returned field never equals the id the record was stored
under. -/
theorem process_audio_bu_literal_id (tbl : List Row) (fname : String)
    (tr : TranscriptionResult) (nlp : NlpResult) (uuid : String) (ts : Nat)
    (res : ProcessResultBU) (tbl' : List Row)
    (hok : process_audio_bu tbl fname tr nlp uuid ts = .ok (res, tbl'))
    (hlen : uuid.length = 36) :
    res.transcription_id = "transcription_id" ∧
    tbl' = tbl ++ [mkRow uuid fname tr nlp ts] ∧
    (mkRow uuid fname tr nlp ts).id = uuid ∧
    res.transcription_id ≠ uuid := by
  unfold process_audio_bu at hok
  cases hst : store_transcription tbl uuid fname tr nlp ts with
  | error e => rw [hst] at hok; simp at hok
  | ok p =>
    obtain ⟨u, t2⟩ := p
    rw [hst] at hok
    simp only [Except.ok.injEq, Prod.mk.injEq] at hok
    obtain ⟨hres, htbl⟩ := hok
    have hshape := store_transcription_ok_shape tbl uuid fname tr nlp ts u t2 hst
    subst htbl
    refine ⟨?_, hshape, rfl, ?_⟩
    · rw [← hres]
    · have htid : res.transcription_id = "transcription_id" := by rw [← hres]
      rw [htid]
      intro he
      have h16 := congrArg String.length he
      rw [hlen] at h16
      exact absurd h16 (by decide)

theorem process_audio_bu_literal_id_witness :
    (⟨"transcription_id", "hallo", "OTHER", []⟩ : ProcessResultBU).transcription_id =
        "transcription_id" ∧
    [mkRow "123e4567-e89b-12d3-a456-426614174000" "g.m4a" ⟨"hallo", "de"⟩ ⟨"OTHER", []⟩ 9] =
      [] ++ [mkRow "123e4567-e89b-12d3-a456-426614174000" "g.m4a"
        ⟨"hallo", "de"⟩ ⟨"OTHER", []⟩ 9] ∧
    (mkRow "123e4567-e89b-12d3-a456-426614174000" "g.m4a"
        ⟨"hallo", "de"⟩ ⟨"OTHER", []⟩ 9).id = "123e4567-e89b-12d3-a456-426614174000" ∧
    (⟨"transcription_id", "hallo", "OTHER", []⟩ : ProcessResultBU).transcription_id ≠
      "123e4567-e89b-12d3-a456-426614174000" :=
  process_audio_bu_literal_id [] "g.m4a" ⟨"hallo", "de"⟩ ⟨"OTHER", []⟩
    "123e4567-e89b-12d3-a456-426614174000" 9
    ⟨"transcription_id", "hallo", "OTHER", []⟩
    [mkRow "123e4567-e89b-12d3-a456-426614174000" "g.m4a" ⟨"hallo", "de"⟩ ⟨"OTHER", []⟩ 9]
    rfl rfl
